import Mathlib

/-
Verification of the TCP connector failover state machine from
`actix-tls/src/connect/connector.rs`.

The module implements a multi-address failover future: given a connect
request carrying an address descriptor (`ConnectAddrs`), it tries the
candidate socket addresses strictly front-to-back, returning the first
successful connection, or the error of the last attempted address when
all candidates fail.

Shallow embedding conventions:
  * socket addresses, established sockets and I/O errors are abstracted
    as natural numbers;
  * the transport layer (`TcpStream::connect`) is an oracle `Env` giving,
    for every address, how many polls its connect future stays `Pending`
    (`delay`) and its final outcome (`result`);
  * one call to `Future::poll` is a function from the state to
    `Option (outcome × new state × attempted addresses)`; the `none`
    result marks a point where the Rust code would panic (a failed
    `unwrap` or the `unreachable!` arm);
  * `TcpStream::connect` is an `async fn`, so creating the future performs
    no I/O; a connect attempt is recorded when its future is first polled.
-/

set_option linter.unusedVariables false

namespace ActixTls

abbrev SocketAddr := Nat

abbrev TcpStream := Nat

abbrev IoError := Nat

/-- Modelled from the spec: `ConnectError` (defined in the sibling module
`connect/error.rs`, not part of the fragment) is the tagged variant
`{Unresolved, Io(underlying I/O error)}`. -/
inductive ConnectError where
  | Unresolved : ConnectError
  | Io : IoError → ConnectError
deriving DecidableEq, Repr

/-- Modelled from the spec: `Connection` (sibling module `connect/connect.rs`,
not part of the fragment) pairs an established socket with the original
endpoint descriptor; `Connection::new(sock, req)` builds it. -/
structure Connection (T : Type) where
  io : TcpStream
  req : T
deriving DecidableEq, Repr

/-- `Connection::new(sock, req)`. -/
def Connection.new {T : Type} (sock : TcpStream) (req : T) : Connection T :=
  ⟨sock, req⟩

/-- Modelled from the spec: the address descriptor `ConnectAddrs` (sibling
module `connect/connect.rs`, not part of the fragment): none, one, or an
ordered queue of concrete transport addresses.  The `VecDeque` of the
`Multi` arm is a list whose head is the front of the queue. -/
inductive ConnectAddrs where
  | None : ConnectAddrs
  | One : SocketAddr → ConnectAddrs
  | Multi : List SocketAddr → ConnectAddrs
deriving DecidableEq, Repr

/-- Modelled from the spec: `ConnectAddrs::is_none` holds exactly for the
`None` variant (`Unresolved` carries no addresses and is the
terminal-failure condition). -/
def ConnectAddrs.is_none : ConnectAddrs → Bool
  | .None => true
  | _ => false

/-- Modelled from the spec: the connect request
`ConnectRequest{endpoint, port, addresses}` (struct `Connect` of the
sibling module `connect/connect.rs`): an opaque caller-supplied endpoint
descriptor `req`, the target port, and the address descriptor. -/
structure Connect (T : Type) where
  req : T
  port : Nat
  addr : ConnectAddrs

/-- Modelled from the spec: the transport layer is a function
`connect(address) -> Future<Result<Socket, IoError>>`.  `delay a` is the
number of polls the connect future for `a` returns `Pending` before
completing, and `result a` is its final outcome. -/
structure Env where
  delay : SocketAddr → Nat
  result : SocketAddr → Except IoError TcpStream

/-- The pending-attempt slot: models the
`ReusableBoxFuture<Result<TcpStream, io::Error>>` holding the lazy future
`TcpStream::connect(addr)`.  `started` records whether the future has been
polled at least once (the connect attempt is issued at first poll; merely
creating the future performs no I/O), and `remaining` counts how many
further polls return `Poll::Pending` before the future completes. -/
structure ConnAttempt where
  addr : SocketAddr
  remaining : Nat
  started : Bool
deriving DecidableEq, Repr

/-- The future `TcpConnectorResponse<T>`:
`Response { req, port, addrs, stream }` or `Error(Option<ConnectError>)`. -/
inductive TcpConnectorResponse (T : Type) where
  | Response (req : Option T) (port : Nat) (addrs : Option (List SocketAddr))
      (stream : Option ConnAttempt) : TcpConnectorResponse T
  | Error (err : Option ConnectError) : TcpConnectorResponse T
deriving DecidableEq, Repr

instance instDecEqExcept {ε α : Type} [DecidableEq ε] [DecidableEq α] :
    DecidableEq (Except ε α) := fun x y =>
  match x, y with
  | .ok a, .ok b =>
    if h : a = b then .isTrue (by rw [h]) else .isFalse (by intro hc; cases hc; exact h rfl)
  | .error a, .error b =>
    if h : a = b then .isTrue (by rw [h]) else .isFalse (by intro hc; cases hc; exact h rfl)
  | .ok _, .error _ => .isFalse (by intro hc; cases hc)
  | .error _, .ok _ => .isFalse (by intro hc; cases hc)

/-- The outcome of one `poll` call: `Poll::Pending`, or
`Poll::Ready(Result<Connection, ConnectError>)`. -/
inductive PollOut (T : Type) where
  | pending : PollOut T
  | ready : Except ConnectError (Connection T) → PollOut T
deriving DecidableEq, Repr

/-- Result of one `poll` call: the outcome, the state the future is left
in, and the addresses whose connect attempt was started during this call;
`none` marks a panic (failed `unwrap`). -/
abbrev PollStep (T : Type) := Option (PollOut T × TcpConnectorResponse T × List SocketAddr)

/-- The `loop` of `<TcpConnectorResponse<T> as Future>::poll` on the
`Response` arm.  Each iteration polls the in-flight attempt if one exists:
`Pending` suspends the whole future; `Ok(sock)` takes the request
(`req.take().unwrap()`, panicking if already taken) and resolves to a
`Connection`; `Err(err)` resolves to `Err(Io(err))` when the queue is
absent or empty.  Otherwise the next address is popped from the front of
the queue (`addrs.as_mut().unwrap().pop_front().unwrap()`, panicking when
the queue is absent or empty), its connect future is installed in the
slot in place, and the loop continues with the new attempt. -/
def pollResponse {T : Type} (env : Env) (req : Option T) (port : Nat) :
    Option (List SocketAddr) → Option ConnAttempt → PollStep T
  | addrs, some att =>
    let tr0 : List SocketAddr := if att.started then [] else [att.addr]
    match att.remaining with
    | k + 1 =>
      some (.pending, .Response req port addrs (some ⟨att.addr, k, true⟩), tr0)
    | 0 =>
      match env.result att.addr with
      | .ok sock =>
        match req with
        | some r =>
          some (.ready (.ok (Connection.new sock r)),
            .Response none port addrs (some ⟨att.addr, 0, true⟩), tr0)
        | none => none
      | .error e =>
        match addrs with
        | none =>
          some (.ready (.error (.Io e)),
            .Response req port none (some ⟨att.addr, 0, true⟩), tr0)
        | some [] =>
          some (.ready (.error (.Io e)),
            .Response req port (some []) (some ⟨att.addr, 0, true⟩), tr0)
        | some (next :: rest) =>
          match pollResponse env req port (some rest) (some ⟨next, env.delay next, false⟩) with
          | some (out, st, tr) => some (out, st, tr0 ++ tr)
          | none => none
  | addrs, none =>
    match addrs with
    | some (next :: rest) =>
      pollResponse env req port (some rest) (some ⟨next, env.delay next, false⟩)
    | some [] => none
    | none => none
termination_by addrs att => (addrs.getD []).length
decreasing_by
  all_goals simp [Option.getD]

/-- `<TcpConnectorResponse<T> as Future>::poll`.  The `Error` arm returns
`Poll::Ready(Err(err.take().unwrap()))`, panicking when the error was
already taken by a previous poll. -/
def TcpConnectorResponse.poll {T : Type} (env : Env) :
    TcpConnectorResponse T → PollStep T
  | .Error err =>
    match err with
    | some e => some (.ready (.error e), .Error none, [])
    | none => none
  | .Response req port addrs stream => pollResponse env req port addrs stream

/-- `TcpConnectorResponse::new(req, port, addr)`.  When `addr.is_none()`
the future starts in the `Error(Some(Unresolved))` state; otherwise the
descriptor is matched: the `None` arm is `unreachable!` (modelled as the
`none` result), `One(addr)` pre-fills the attempt slot with the (lazy, not
yet polled) connect future and allocates no queue, and `Multi(addrs)`
stores the queue with an empty slot.  The list component records connect
attempts performed synchronously during construction: `TcpStream::connect`
is an `async fn`, so none occur and the list is empty in every arm. -/
def TcpConnectorResponse.new {T : Type} (env : Env) (req : T) (port : Nat)
    (addr : ConnectAddrs) : Option (TcpConnectorResponse T × List SocketAddr) :=
  if addr.is_none then
    some (.Error (some .Unresolved), [])
  else
    match addr with
    | .None => none
    | .One a =>
      some (.Response (some req) port none (some ⟨a, env.delay a, false⟩), [])
    | .Multi l =>
      some (.Response (some req) port (some l) none, [])

/-- `<TcpConnector as Service>::call`: reads the port and the address
descriptor out of the request and constructs the response state machine. -/
def TcpConnector.call {T : Type} (env : Env) (c : Connect T) :
    Option (TcpConnectorResponse T × List SocketAddr) :=
  TcpConnectorResponse.new env c.req c.port c.addr

/-- Outcome of `Service::poll_ready`. -/
inductive ReadyPoll where
  | pending : ReadyPoll
  | ready : Except ConnectError Unit → ReadyPoll
deriving DecidableEq, Repr

/-- Modelled from the spec: `actix_service::always_ready!()` (macro of the
`actix-service` crate, not part of the fragment) makes `poll_ready` always
return `Poll::Ready(Ok(()))` — the connector is always immediately ready
to accept a new call. -/
def TcpConnector.poll_ready : ReadyPoll := .ready (.ok ())

/-- Drives the future: polls the state up to `fuel` times, accumulating
attempted addresses.  Returns `none` on a panic; otherwise the final
result (`none` while still pending when the fuel runs out, `some r` once
`poll` returned `Ready r`), the final state and the attempt trace. -/
def drive {T : Type} (env : Env) :
    Nat → TcpConnectorResponse T → List SocketAddr →
      Option (Option (Except ConnectError (Connection T)) × TcpConnectorResponse T × List SocketAddr)
  | 0, st, tr => some (none, st, tr)
  | fuel + 1, st, tr =>
    match st.poll env with
    | none => none
    | some (.pending, st2, tr2) => drive env fuel st2 (tr ++ tr2)
    | some (.ready r, st2, tr2) => some (some r, st2, tr ++ tr2)

/-- The addresses the failover loop attempts, in order, for a queue `l`:
every prefix up to and including the first address whose connect succeeds,
or all of `l` when every attempt fails. -/
def attemptsSpec (env : Env) : List SocketAddr → List SocketAddr
  | [] => []
  | a :: rest =>
    match env.result a with
    | .ok _ => [a]
    | .error _ => a :: attemptsSpec env rest

/-- The final outcome of the failover loop on a non-empty queue: the
connection of the first address whose connect succeeds, else the I/O
error of the last address. -/
def outcomeSpec {T : Type} (env : Env) (req : T) :
    List SocketAddr → Except ConnectError (Connection T)
  | [] => .error .Unresolved
  | a :: rest =>
    match env.result a with
    | .ok sock => .ok (Connection.new sock req)
    | .error e => if rest.isEmpty then .error (.Io e) else outcomeSpec env req rest

/-- Exactly enough fuel to drive the failover loop on queue `l` to its
resolution: one poll per `Pending` of each attempted address, plus the
final resolving poll. -/
def fuelSpec (env : Env) (l : List SocketAddr) : Nat :=
  (attemptsSpec env l).foldr (fun a acc => env.delay a + acc) 1

/-- The invariant under which driving the future can never panic: the
request is still present and, whenever the attempt slot is empty, the
queue holds at least one address. -/
def ResponseInv {T : Type} (st : TcpConnectorResponse T) : Prop :=
  ∃ r p adr stm, st = .Response (some r) p adr stm ∧
    (stm = none → ∃ x xs, adr = some (x :: xs))

/-- A concrete transport environment: every connect completes immediately
and succeeds, address `a` yielding socket `a + 100`. -/
def envAllOk : Env := ⟨fun _ => 0, fun a => .ok (a + 100)⟩

/-- A concrete transport environment: the connect future for address `a`
stays pending for `a` polls; address `1` then fails with I/O error `9`,
every other address succeeds with socket `a + 100`. -/
def envMix : Env := ⟨fun a => a, fun a => if a = 1 then .error 9 else .ok (a + 100)⟩

/-- A concrete transport environment: every connect stays pending for one
poll and then fails, address `a` producing I/O error `a + 50`. -/
def envFail : Env := ⟨fun _ => 1, fun a => .error (a + 50)⟩

/-! ### Unfolding lemmas for `pollResponse` and `poll` -/

section Unfolding

variable {T : Type} (env : Env) (req : Option T) (port : Nat)

theorem pollResponse_none_none :
    pollResponse env req port none none = (none : PollStep T) := by
  simp [pollResponse]

theorem pollResponse_nil_none :
    pollResponse env req port (some []) none = (none : PollStep T) := by
  simp [pollResponse]

theorem pollResponse_cons_none (a : SocketAddr) (rest : List SocketAddr) :
    pollResponse env req port (some (a :: rest)) none
      = pollResponse env req port (some rest) (some ⟨a, env.delay a, false⟩) :=
  pollResponse.eq_2 env req port a rest

theorem pollResponse_pending (addrs : Option (List SocketAddr)) (a : SocketAddr)
    (k : Nat) (b : Bool) :
    pollResponse env req port addrs (some ⟨a, k + 1, b⟩)
      = some (.pending, .Response req port addrs (some ⟨a, k, true⟩),
          if b then [] else [a]) := by
  simp [pollResponse]

theorem pollResponse_ok (addrs : Option (List SocketAddr)) (a : SocketAddr)
    (b : Bool) (r : T) (sock : TcpStream) (hres : env.result a = .ok sock) :
    pollResponse env (some r) port addrs (some ⟨a, 0, b⟩)
      = some (.ready (.ok (Connection.new sock r)),
          .Response none port addrs (some ⟨a, 0, true⟩), if b then [] else [a]) := by
  simp [pollResponse, hres]

theorem pollResponse_ok_taken (addrs : Option (List SocketAddr)) (a : SocketAddr)
    (b : Bool) (sock : TcpStream) (hres : env.result a = .ok sock) :
    pollResponse env (none : Option T) port addrs (some ⟨a, 0, b⟩) = none := by
  simp [pollResponse, hres]

theorem pollResponse_err_single (a : SocketAddr) (b : Bool) (e : IoError)
    (hres : env.result a = .error e) :
    pollResponse env req port none (some ⟨a, 0, b⟩)
      = some (.ready (.error (.Io e)),
          .Response req port none (some ⟨a, 0, true⟩), if b then [] else [a]) := by
  simp [pollResponse, hres]

theorem pollResponse_err_exhausted (a : SocketAddr) (b : Bool) (e : IoError)
    (hres : env.result a = .error e) :
    pollResponse env req port (some []) (some ⟨a, 0, b⟩)
      = some (.ready (.error (.Io e)),
          .Response req port (some []) (some ⟨a, 0, true⟩), if b then [] else [a]) := by
  simp [pollResponse, hres]

theorem pollResponse_err_next (a : SocketAddr) (b : Bool) (e : IoError)
    (x : SocketAddr) (xs : List SocketAddr) (hres : env.result a = .error e) :
    pollResponse env req port (some (x :: xs)) (some ⟨a, 0, b⟩)
      = Option.map (fun p => (p.1, p.2.1, (if b then [] else [a]) ++ p.2.2))
          (pollResponse env req port (some xs) (some ⟨x, env.delay x, false⟩)) := by
  rw [pollResponse.eq_1]
  cases h : pollResponse env req port (some xs) (some ⟨x, env.delay x, false⟩) with
  | none => simp [hres, h]
  | some p =>
    obtain ⟨out, st, tr⟩ := p
    simp [hres, h]

theorem poll_Response (addrs : Option (List SocketAddr)) (stream : Option ConnAttempt) :
    TcpConnectorResponse.poll env (.Response req port addrs stream)
      = pollResponse env req port addrs stream := rfl

theorem poll_Error_some (e : ConnectError) :
    TcpConnectorResponse.poll env (.Error (some e) : TcpConnectorResponse T)
      = some (.ready (.error e), .Error none, []) := rfl

theorem poll_Error_none :
    TcpConnectorResponse.poll env (.Error none : TcpConnectorResponse T) = none := rfl

end Unfolding

/-! ### Driving lemmas -/

section Driving

variable {T : Type} (env : Env)

/-- When the first polls of two states agree up to a prefix `pre` of the
attempt trace, driving them with the same fuel agrees, the prefix moving
into the accumulated trace. -/
theorem drive_transfer (st st2 : TcpConnectorResponse T) (pre : List SocketAddr)
    (hpoll : st.poll env
      = Option.map (fun p => (p.1, p.2.1, pre ++ p.2.2)) (st2.poll env))
    (f : Nat) (hf : 0 < f) (tr : List SocketAddr) :
    drive env f st tr = drive env f st2 (tr ++ pre) := by
  obtain ⟨f, rfl⟩ : ∃ g, f = g + 1 := ⟨f - 1, by omega⟩
  show drive env (f + 1) st tr = drive env (f + 1) st2 (tr ++ pre)
  rw [drive, drive, hpoll]
  cases h : st2.poll env with
  | none => rfl
  | some p =>
    obtain ⟨out, st3, tr3⟩ := p
    cases out with
    | pending => simp [List.append_assoc]
    | ready r => simp [List.append_assoc]

/-- Special case of `drive_transfer`: states whose first poll agree
outright drive identically. -/
theorem drive_poll_congr (st st2 : TcpConnectorResponse T)
    (hpoll : st.poll env = st2.poll env) (f : Nat) (hf : 0 < f)
    (tr : List SocketAddr) : drive env f st tr = drive env f st2 tr := by
  have h := drive_transfer env st st2 [] ?_ f hf tr
  · simpa using h
  · rw [hpoll]
    cases h2 : st2.poll env with
    | none => rfl
    | some p => simp

/-- Counting down a pending attempt: each poll of an attempt with `k`
pendings left consumes one unit of fuel and one unit of `remaining`. -/
theorem drive_countdown (req : Option T) (port : Nat)
    (addrs : Option (List SocketAddr)) (a : SocketAddr) :
    ∀ (k f : Nat) (tr : List SocketAddr),
      drive env (k + f) (.Response req port addrs (some ⟨a, k, true⟩)) tr
        = drive env f (.Response req port addrs (some ⟨a, 0, true⟩)) tr := by
  intro k
  induction k with
  | zero => intro f tr; rw [Nat.zero_add]
  | succ k ih =>
    intro f tr
    have hfuel : k + 1 + f = (k + f) + 1 := by omega
    rw [hfuel, drive, poll_Response, pollResponse_pending]
    simpa using ih f tr

/-- A completed (`remaining = 0`) but never-polled attempt polls exactly
like its already-started counterpart, with its address prepended to the
attempt trace. -/
theorem pollResponse_fresh_zero (req : Option T) (port : Nat)
    (addrs : Option (List SocketAddr)) (a : SocketAddr) :
    pollResponse env req port addrs (some ⟨a, 0, false⟩)
      = Option.map (fun p => (p.1, p.2.1, [a] ++ p.2.2))
          (pollResponse env req port addrs (some ⟨a, 0, true⟩)) := by
  cases hres : env.result a with
  | ok sock =>
    cases req with
    | some r =>
      rw [pollResponse_ok env port addrs a false r sock hres,
        pollResponse_ok env port addrs a true r sock hres]
      simp
    | none =>
      rw [pollResponse_ok_taken env port addrs a false sock hres,
        pollResponse_ok_taken env port addrs a true sock hres]
      rfl
  | error e =>
    cases addrs with
    | none =>
      rw [pollResponse_err_single env req port a false e hres,
        pollResponse_err_single env req port a true e hres]
      simp
    | some l =>
      cases l with
      | nil =>
        rw [pollResponse_err_exhausted env req port a false e hres,
          pollResponse_err_exhausted env req port a true e hres]
        simp
      | cons x xs =>
        rw [pollResponse_err_next env req port a false e x xs hres,
          pollResponse_err_next env req port a true e x xs hres]
        cases h : pollResponse env req port (some xs) (some ⟨x, env.delay x, false⟩) with
        | none => rfl
        | some p => obtain ⟨out, st, tr2⟩ := p; simp

/-- A freshly installed attempt at address `a` behaves, after `delay a`
pendings, like an already-started attempt with no pendings left, with `a`
recorded in the attempt trace. -/
theorem drive_fresh (req : Option T) (port : Nat)
    (addrs : Option (List SocketAddr)) (a : SocketAddr) (f : Nat) (hf : 0 < f)
    (tr : List SocketAddr) :
    drive env (env.delay a + f) (.Response req port addrs (some ⟨a, env.delay a, false⟩)) tr
      = drive env f (.Response req port addrs (some ⟨a, 0, true⟩)) (tr ++ [a]) := by
  cases hd : env.delay a with
  | zero =>
    rw [Nat.zero_add]
    refine drive_transfer env _ _ [a] ?_ f hf tr
    rw [poll_Response, poll_Response]
    exact pollResponse_fresh_zero env req port addrs a
  | succ k =>
    have hfuel : k + 1 + f = (k + f) + 1 := by omega
    rw [hfuel, drive, poll_Response, pollResponse_pending]
    simpa using drive_countdown env req port addrs a k f (tr ++ [a])

/-- Resolving a completed successful attempt: the request is reclaimed and
the future resolves to the connection, in one poll. -/
theorem drive_resolve_ok (r : T) (port : Nat) (addrs : Option (List SocketAddr))
    (a : SocketAddr) (sock : TcpStream) (hres : env.result a = .ok sock)
    (f : Nat) (hf : 0 < f) (tr : List SocketAddr) :
    drive env f (.Response (some r) port addrs (some ⟨a, 0, true⟩)) tr
      = some (some (.ok (Connection.new sock r)),
          .Response none port addrs (some ⟨a, 0, true⟩), tr) := by
  obtain ⟨f, rfl⟩ : ∃ g, f = g + 1 := ⟨f - 1, by omega⟩
  rw [drive, poll_Response, pollResponse_ok env port addrs a true r sock hres]
  simp

/-- Resolving a completed failed attempt in single-address mode (no queue):
the future resolves to the attempt's I/O error, in one poll. -/
theorem drive_resolve_err_single (req : Option T) (port : Nat) (a : SocketAddr)
    (e : IoError) (hres : env.result a = .error e) (f : Nat) (hf : 0 < f)
    (tr : List SocketAddr) :
    drive env f (.Response req port none (some ⟨a, 0, true⟩)) tr
      = some (some (.error (.Io e)),
          .Response req port none (some ⟨a, 0, true⟩), tr) := by
  obtain ⟨f, rfl⟩ : ∃ g, f = g + 1 := ⟨f - 1, by omega⟩
  rw [drive, poll_Response, pollResponse_err_single env req port a true e hres]
  simp

/-- Resolving a completed failed attempt with an exhausted queue: the
future resolves to the attempt's I/O error, in one poll. -/
theorem drive_resolve_err_exhausted (req : Option T) (port : Nat) (a : SocketAddr)
    (e : IoError) (hres : env.result a = .error e) (f : Nat) (hf : 0 < f)
    (tr : List SocketAddr) :
    drive env f (.Response req port (some []) (some ⟨a, 0, true⟩)) tr
      = some (some (.error (.Io e)),
          .Response req port (some []) (some ⟨a, 0, true⟩), tr) := by
  obtain ⟨f, rfl⟩ : ∃ g, f = g + 1 := ⟨f - 1, by omega⟩
  rw [drive, poll_Response, pollResponse_err_exhausted env req port a true e hres]
  simp

/-- After a failed attempt with a non-empty queue left, the future behaves
exactly like a future that is about to pop that queue with an empty slot:
the failed error is discarded and the loop moves on synchronously. -/
theorem drive_resolve_err_next (req : Option T) (port : Nat) (a : SocketAddr)
    (e : IoError) (x : SocketAddr) (xs : List SocketAddr)
    (hres : env.result a = .error e) (f : Nat) (hf : 0 < f)
    (tr : List SocketAddr) :
    drive env f (.Response req port (some (x :: xs)) (some ⟨a, 0, true⟩)) tr
      = drive env f (.Response req port (some (x :: xs)) none) tr := by
  refine drive_poll_congr env _ _ ?_ f hf tr
  rw [poll_Response, poll_Response, pollResponse_cons_none,
    pollResponse_err_next env req port a true e x xs hres]
  cases h : pollResponse env req port (some xs) (some ⟨x, env.delay x, false⟩) with
  | none => rfl
  | some p => obtain ⟨out, st, tr2⟩ := p; simp

end Driving

/-! ### The specification functions evaluated -/

section SpecFns

variable {T : Type} (env : Env)

theorem attemptsSpec_cons_ok (a : SocketAddr) (rest : List SocketAddr)
    (sock : TcpStream) (hres : env.result a = .ok sock) :
    attemptsSpec env (a :: rest) = [a] := by
  simp [attemptsSpec, hres]

theorem attemptsSpec_cons_err (a : SocketAddr) (rest : List SocketAddr)
    (e : IoError) (hres : env.result a = .error e) :
    attemptsSpec env (a :: rest) = a :: attemptsSpec env rest := by
  simp [attemptsSpec, hres]

theorem outcomeSpec_cons_ok (req : T) (a : SocketAddr) (rest : List SocketAddr)
    (sock : TcpStream) (hres : env.result a = .ok sock) :
    outcomeSpec env req (a :: rest) = .ok (Connection.new sock req) := by
  simp [outcomeSpec, hres]

theorem outcomeSpec_last_err (req : T) (a : SocketAddr) (e : IoError)
    (hres : env.result a = .error e) :
    outcomeSpec env req [a] = .error (.Io e) := by
  simp [outcomeSpec, hres]

theorem outcomeSpec_cons_err (req : T) (a : SocketAddr) (x : SocketAddr)
    (xs : List SocketAddr) (e : IoError) (hres : env.result a = .error e) :
    outcomeSpec env req (a :: x :: xs) = outcomeSpec env req (x :: xs) := by
  simp [outcomeSpec, hres]

theorem foldr_delay_pos (L : List SocketAddr) :
    0 < L.foldr (fun a acc => env.delay a + acc) 1 := by
  induction L with
  | nil => simp
  | cons a rest ih => simp only [List.foldr]; omega

theorem fuelSpec_pos (l : List SocketAddr) : 0 < fuelSpec env l :=
  foldr_delay_pos env (attemptsSpec env l)

theorem fuelSpec_cons_ok (a : SocketAddr) (rest : List SocketAddr)
    (sock : TcpStream) (hres : env.result a = .ok sock) :
    fuelSpec env (a :: rest) = env.delay a + 1 := by
  rw [fuelSpec, attemptsSpec_cons_ok env a rest sock hres]
  rfl

theorem fuelSpec_cons_err (a : SocketAddr) (rest : List SocketAddr)
    (e : IoError) (hres : env.result a = .error e) :
    fuelSpec env (a :: rest) = env.delay a + fuelSpec env rest := by
  rw [fuelSpec, attemptsSpec_cons_err env a rest e hres]
  rfl

theorem attemptsSpec_all_err (failure : SocketAddr → IoError) :
    ∀ (l : List SocketAddr), (∀ a ∈ l, env.result a = .error (failure a)) →
      attemptsSpec env l = l := by
  intro l
  induction l with
  | nil => intro _; rfl
  | cons a rest ih =>
    intro hf
    rw [attemptsSpec_cons_err env a rest (failure a) (hf a (by simp)),
      ih (fun x hx => hf x (by simp [hx]))]

theorem outcomeSpec_all_err (req : T) (failure : SocketAddr → IoError) :
    ∀ (l : List SocketAddr) (h : l ≠ []),
      (∀ a ∈ l, env.result a = .error (failure a)) →
      outcomeSpec env req l = .error (.Io (failure (l.getLast h))) := by
  intro l
  induction l with
  | nil => intro h; exact absurd rfl h
  | cons a rest ih =>
    intro h hf
    cases rest with
    | nil =>
      rw [outcomeSpec_last_err env req a (failure a) (hf a (by simp))]
      rfl
    | cons x xs =>
      rw [outcomeSpec_cons_err env req a x xs (failure a) (hf a (by simp)),
        ih (by simp) (fun y hy => hf y (by simp [hy]))]
      simp [List.getLast_cons]

end SpecFns

/-! ### The failover loop, characterized -/

section Workhorse

variable {T : Type} (env : Env)

/-- Driving the `Multi` failover loop on a non-empty queue `l` with
sufficient fuel: the addresses attempted are exactly `attemptsSpec env l`
(in order), and the result is `outcomeSpec env req l` — the connection of
the first address whose connect succeeds, else the I/O error of the last
address of the queue. -/
theorem drive_multi_run :
    ∀ (l : List SocketAddr), l ≠ [] → ∀ (req : T) (port : Nat) (tr : List SocketAddr),
      ∃ stF, drive env (fuelSpec env l) (.Response (some req) port (some l) none) tr
        = some (some (outcomeSpec env req l), stF, tr ++ attemptsSpec env l) := by
  intro l
  induction l with
  | nil => intro h; exact absurd rfl h
  | cons a rest ih =>
    intro _ req port tr
    have hstep :
        drive env (fuelSpec env (a :: rest))
            (.Response (some req) port (some (a :: rest)) none) tr
          = drive env (fuelSpec env (a :: rest))
              (.Response (some req) port (some rest)
                (some ⟨a, env.delay a, false⟩)) tr := by
      refine drive_poll_congr env _ _ ?_ _ (fuelSpec_pos env _) tr
      rw [poll_Response, poll_Response, pollResponse_cons_none]
    rw [hstep]
    cases hres : env.result a with
    | ok sock =>
      rw [fuelSpec_cons_ok env a rest sock hres,
        drive_fresh env (some req) port (some rest) a 1 (by omega) tr,
        drive_resolve_ok env req port (some rest) a sock hres 1 (by omega),
        outcomeSpec_cons_ok env req a rest sock hres,
        attemptsSpec_cons_ok env a rest sock hres]
      exact ⟨_, rfl⟩
    | error e =>
      rw [fuelSpec_cons_err env a rest e hres,
        drive_fresh env (some req) port (some rest) a (fuelSpec env rest)
          (fuelSpec_pos env rest) tr]
      cases rest with
      | nil =>
        rw [drive_resolve_err_exhausted env (some req) port a e hres _
          (fuelSpec_pos env []),
          outcomeSpec_last_err env req a e hres,
          attemptsSpec_cons_err env a [] e hres]
        refine ⟨.Response (some req) port (some []) (some ⟨a, 0, true⟩), ?_⟩
        simp [attemptsSpec]
      | cons x xs =>
        rw [drive_resolve_err_next env (some req) port a e x xs hres _
          (fuelSpec_pos env (x :: xs)),
          outcomeSpec_cons_err env req a x xs e hres,
          attemptsSpec_cons_err env a (x :: xs) e hres]
        obtain ⟨stF, hF⟩ := ih (by simp) req port (tr ++ [a])
        rw [hF]
        refine ⟨stF, ?_⟩
        simp

end Workhorse

/-! ### Shape lemmas: what a poll outcome says about the state -/

section Shapes

variable {T : Type} (env : Env)

/-- A poll of the `Response` arm returns `Pending` only when the in-flight
connect attempt itself is pending: the resulting state suspends on an
attempt `⟨a, k, true⟩` that either was already installed with `k + 1`
pending polls left, or was freshly installed during this poll with its
full delay `env.delay a = k + 1` still to run.  The request and port are
untouched. -/
theorem pollResponse_pending_shape (req : Option T) (port : Nat) :
    ∀ (addrs : Option (List SocketAddr)) (stream : Option ConnAttempt)
      (st2 : TcpConnectorResponse T) (tr : List SocketAddr),
      pollResponse env req port addrs stream = some (.pending, st2, tr) →
      ∃ a k addrs2, st2 = .Response req port addrs2 (some ⟨a, k, true⟩) ∧
        ((∃ b, stream = some ⟨a, k + 1, b⟩ ∧ addrs2 = addrs) ∨ env.delay a = k + 1) := by
  intro addrs stream
  induction addrs, stream using pollResponse.induct env req port with
  | case1 addrs att k hrem =>
    intro st2 tr h
    obtain ⟨a0, r0, b0⟩ := att
    simp only at hrem
    subst hrem
    rw [pollResponse_pending] at h
    simp only [Option.some.injEq, Prod.mk.injEq] at h
    exact ⟨a0, k, addrs, h.2.1.symm, Or.inl ⟨b0, rfl, rfl⟩⟩
  | case2 addrs att hrem sock hres r hreq =>
    intro st2 tr h
    obtain ⟨a0, r0, b0⟩ := att
    simp only at hrem hres
    subst hrem
    subst hreq
    rw [pollResponse_ok env port addrs a0 b0 r sock hres] at h
    simp at h
  | case3 addrs att hrem sock hres hreq =>
    intro st2 tr h
    obtain ⟨a0, r0, b0⟩ := att
    simp only at hrem hres
    subst hrem
    subst hreq
    rw [pollResponse_ok_taken env port addrs a0 b0 sock hres] at h
    simp at h
  | case4 att hrem e hres =>
    intro st2 tr h
    obtain ⟨a0, r0, b0⟩ := att
    simp only at hrem hres
    subst hrem
    rw [pollResponse_err_single env req port a0 b0 e hres] at h
    simp at h
  | case5 att hrem e hres =>
    intro st2 tr h
    obtain ⟨a0, r0, b0⟩ := att
    simp only at hrem hres
    subst hrem
    rw [pollResponse_err_exhausted env req port a0 b0 e hres] at h
    simp at h
  | case6 att hrem e hres next rest out st trIn hinner ih =>
    intro st2 tr h
    obtain ⟨a0, r0, b0⟩ := att
    have hrem2 : r0 = 0 := hrem
    subst hrem2
    rw [pollResponse_err_next env req port a0 b0 e next rest hres, hinner] at h
    simp at h
    obtain ⟨hout, hst, htr⟩ := h
    subst hout
    obtain ⟨a, k, addrs2, hshape, hcase⟩ := ih st trIn hinner
    refine ⟨a, k, addrs2, by rw [← hst, hshape], Or.inr ?_⟩
    rcases hcase with ⟨b, hb, _⟩ | hdel
    · obtain ⟨h1, h2, h3⟩ := ConnAttempt.mk.injEq _ _ _ _ _ _ ▸ (Option.some.inj hb)
      rw [← h1, ← h2]
    · exact hdel
  | case7 att hrem e hres next rest hinner ih =>
    intro st2 tr h
    obtain ⟨a0, r0, b0⟩ := att
    simp only at hrem hres
    subst hrem
    rw [pollResponse_err_next env req port a0 b0 e next rest hres, hinner] at h
    simp at h
  | case8 next rest ih =>
    intro st2 tr h
    rw [pollResponse_cons_none] at h
    obtain ⟨a, k, addrs2, hshape, hcase⟩ := ih st2 tr h
    refine ⟨a, k, addrs2, hshape, Or.inr ?_⟩
    rcases hcase with ⟨b, hb, _⟩ | hdel
    · obtain ⟨h1, h2, h3⟩ := ConnAttempt.mk.injEq _ _ _ _ _ _ ▸ (Option.some.inj hb)
      rw [← h1, ← h2]
    · exact hdel
  | case9 =>
    intro st2 tr h
    rw [pollResponse_nil_none] at h
    exact absurd h (by simp)
  | case10 =>
    intro st2 tr h
    rw [pollResponse_none_none] at h
    exact absurd h (by simp)

/-- A poll of the `Response` arm returns `Ready(Ok(connection))` only from
the success branch: the resulting state has had its request taken
(`req = none`) and still holds the completed successful attempt in the
slot. -/
theorem pollResponse_ok_shape (req : Option T) (port : Nat) :
    ∀ (addrs : Option (List SocketAddr)) (stream : Option ConnAttempt)
      (c : Connection T) (st2 : TcpConnectorResponse T) (tr : List SocketAddr),
      pollResponse env req port addrs stream = some (.ready (.ok c), st2, tr) →
      ∃ a addrs2, st2 = .Response none port addrs2 (some ⟨a, 0, true⟩) ∧
        env.result a = .ok c.io := by
  intro addrs stream
  induction addrs, stream using pollResponse.induct env req port with
  | case1 addrs att k hrem =>
    intro c st2 tr h
    obtain ⟨a0, r0, b0⟩ := att
    have hrem2 : r0 = k + 1 := hrem
    subst hrem2
    rw [pollResponse_pending] at h
    simp at h
  | case2 addrs att hrem sock hres r hreq =>
    intro c st2 tr h
    obtain ⟨a0, r0, b0⟩ := att
    have hrem2 : r0 = 0 := hrem
    subst hrem2
    subst hreq
    rw [pollResponse_ok env port addrs a0 b0 r sock hres] at h
    simp only [Option.some.injEq, Prod.mk.injEq, PollOut.ready.injEq] at h
    obtain ⟨hc, hst, htr⟩ := h
    refine ⟨a0, addrs, hst.symm, ?_⟩
    injection hc with hc2
    rw [← hc2]
    exact hres
  | case3 addrs att hrem sock hres hreq =>
    intro c st2 tr h
    obtain ⟨a0, r0, b0⟩ := att
    have hrem2 : r0 = 0 := hrem
    subst hrem2
    subst hreq
    rw [pollResponse_ok_taken env port addrs a0 b0 sock hres] at h
    simp at h
  | case4 att hrem e hres =>
    intro c st2 tr h
    obtain ⟨a0, r0, b0⟩ := att
    have hrem2 : r0 = 0 := hrem
    subst hrem2
    rw [pollResponse_err_single env req port a0 b0 e hres] at h
    simp at h
  | case5 att hrem e hres =>
    intro c st2 tr h
    obtain ⟨a0, r0, b0⟩ := att
    have hrem2 : r0 = 0 := hrem
    subst hrem2
    rw [pollResponse_err_exhausted env req port a0 b0 e hres] at h
    simp at h
  | case6 att hrem e hres next rest out st trIn hinner ih =>
    intro c st2 tr h
    obtain ⟨a0, r0, b0⟩ := att
    have hrem2 : r0 = 0 := hrem
    subst hrem2
    rw [pollResponse_err_next env req port a0 b0 e next rest hres, hinner] at h
    simp at h
    obtain ⟨hout, hst, htr⟩ := h
    subst hout
    obtain ⟨a, addrs2, hshape, hres2⟩ := ih c st trIn hinner
    exact ⟨a, addrs2, by rw [← hst, hshape], hres2⟩
  | case7 att hrem e hres next rest hinner ih =>
    intro c st2 tr h
    obtain ⟨a0, r0, b0⟩ := att
    have hrem2 : r0 = 0 := hrem
    subst hrem2
    rw [pollResponse_err_next env req port a0 b0 e next rest hres, hinner] at h
    simp at h
  | case8 next rest ih =>
    intro c st2 tr h
    rw [pollResponse_cons_none] at h
    exact ih c st2 tr h
  | case9 =>
    intro c st2 tr h
    rw [pollResponse_nil_none] at h
    exact absurd h (by simp)
  | case10 =>
    intro c st2 tr h
    rw [pollResponse_none_none] at h
    exact absurd h (by simp)

/-- With the request still present and a non-empty queue whenever the slot
is empty, a poll of the `Response` arm cannot panic: every `unwrap` in the
loop succeeds. -/
theorem pollResponse_ne_none (r : T) (port : Nat) :
    ∀ (addrs : Option (List SocketAddr)) (stream : Option ConnAttempt),
      (stream = none → ∃ x xs, addrs = some (x :: xs)) →
      pollResponse env (some r) port addrs stream ≠ none := by
  intro addrs stream
  induction addrs, stream using pollResponse.induct env (some r) port with
  | case1 addrs att k hrem =>
    intro hq
    obtain ⟨a0, r0, b0⟩ := att
    have hrem2 : r0 = k + 1 := hrem
    subst hrem2
    rw [pollResponse_pending]
    simp
  | case2 addrs att hrem sock hres r2 hreq =>
    intro hq
    obtain ⟨a0, r0, b0⟩ := att
    have hrem2 : r0 = 0 := hrem
    subst hrem2
    rw [hreq, pollResponse_ok env port addrs a0 b0 r2 sock hres]
    simp
  | case3 addrs att hrem sock hres hreq => exact absurd hreq (by simp)
  | case4 att hrem e hres =>
    intro hq
    obtain ⟨a0, r0, b0⟩ := att
    have hrem2 : r0 = 0 := hrem
    subst hrem2
    rw [pollResponse_err_single env (some r) port a0 b0 e hres]
    simp
  | case5 att hrem e hres =>
    intro hq
    obtain ⟨a0, r0, b0⟩ := att
    have hrem2 : r0 = 0 := hrem
    subst hrem2
    rw [pollResponse_err_exhausted env (some r) port a0 b0 e hres]
    simp
  | case6 att hrem e hres next rest out st trIn hinner ih =>
    intro hq
    obtain ⟨a0, r0, b0⟩ := att
    have hrem2 : r0 = 0 := hrem
    subst hrem2
    rw [pollResponse_err_next env (some r) port a0 b0 e next rest hres, hinner]
    simp
  | case7 att hrem e hres next rest hinner ih =>
    intro hq
    exact absurd hinner (ih (by simp))
  | case8 next rest ih =>
    intro hq
    rw [pollResponse_cons_none]
    exact ih (by simp)
  | case9 =>
    intro hq
    obtain ⟨x, xs, hx⟩ := hq rfl
    simp at hx
  | case10 =>
    intro hq
    obtain ⟨x, xs, hx⟩ := hq rfl
    simp at hx

/-- Driving a state satisfying `ResponseInv` never panics, whatever the
fuel: pops and unwraps in the poll loop always succeed. -/
theorem drive_ne_none : ∀ (fuel : Nat) (st : TcpConnectorResponse T)
    (tr : List SocketAddr), ResponseInv st → drive env fuel st tr ≠ none := by
  intro fuel
  induction fuel with
  | zero => intro st tr hinv; rw [drive]; simp
  | succ f ih =>
    intro st tr hinv
    obtain ⟨r, p, adr, stm, hst, hq⟩ := hinv
    subst hst
    rw [drive, poll_Response]
    have hne := pollResponse_ne_none env r p adr stm hq
    cases hpoll : pollResponse env (some r) p adr stm with
    | none => exact absurd hpoll hne
    | some out3 =>
      obtain ⟨out, st2, tr2⟩ := out3
      cases out with
      | pending =>
        obtain ⟨a, k, addrs2, hshape, hcase⟩ :=
          pollResponse_pending_shape env (some r) p adr stm st2 tr2 hpoll
        subst hshape
        exact ih _ _ ⟨r, p, addrs2, some ⟨a, k, true⟩, rfl, by simp⟩
      | ready res => simp

end Shapes

/-! ### The claims -/

section Claims

variable {T : Type}

/-- C1: For an Ordered-Queue descriptor `[a1, a2, a3]` where the connect
to `a1` fails and the connect to `a2` succeeds, the future makes exactly
two connect attempts, to `a1` then `a2`, never attempts `a3`, and
resolves to `Ok(Connection)` pairing the socket from `a2` with the
original request. -/
theorem ordered_queue_short_circuit (env : Env) (req : T) (port : Nat)
    (a1 a2 a3 : SocketAddr) (e1 : IoError) (s2 : TcpStream)
    (h1 : env.result a1 = .error e1) (h2 : env.result a2 = .ok s2) :
    TcpConnectorResponse.new env req port (.Multi [a1, a2, a3])
      = some (.Response (some req) port (some [a1, a2, a3]) none, []) ∧
    (∃ stF, drive env (env.delay a1 + (env.delay a2 + 1))
        (.Response (some req) port (some [a1, a2, a3]) none) []
      = some (some (.ok (Connection.new s2 req)), stF, [a1, a2])) ∧
    (a3 ≠ a1 → a3 ≠ a2 → a3 ∉ ([a1, a2] : List SocketAddr)) := by
  refine ⟨rfl, ?_, fun hd1 hd2 => by simp [hd1, hd2]⟩
  obtain ⟨stF, hF⟩ := drive_multi_run env [a1, a2, a3] (by simp) req port []
  rw [fuelSpec_cons_err env a1 [a2, a3] e1 h1, fuelSpec_cons_ok env a2 [a3] s2 h2,
    outcomeSpec_cons_err env req a1 a2 [a3] e1 h1,
    outcomeSpec_cons_ok env req a2 [a3] s2 h2,
    attemptsSpec_cons_err env a1 [a2, a3] e1 h1,
    attemptsSpec_cons_ok env a2 [a3] s2 h2] at hF
  simp only [List.nil_append] at hF
  exact ⟨stF, hF⟩

theorem ordered_queue_short_circuit_witness :
    TcpConnectorResponse.new envMix (5 : Nat) 80 (.Multi [1, 2, 3])
      = some (.Response (some 5) 80 (some [1, 2, 3]) none, []) ∧
    (∃ stF, drive envMix (envMix.delay 1 + (envMix.delay 2 + 1))
        (.Response (some (5 : Nat)) 80 (some [1, 2, 3]) none) []
      = some (some (.ok (Connection.new 102 5)), stF, [1, 2])) ∧
    ((3 : SocketAddr) ≠ 1 → (3 : SocketAddr) ≠ 2 → 3 ∉ ([1, 2] : List SocketAddr)) :=
  ordered_queue_short_circuit envMix 5 80 1 2 3 9 102 rfl rfl

/-- C2: When every address of an Ordered-Queue descriptor fails, the
future makes exactly one attempt per address, in queue order, and
resolves to the `Io` error of the last attempted address; errors of
earlier attempts are discarded. -/
theorem all_fail_returns_last_error (env : Env) (req : T) (port : Nat)
    (l : List SocketAddr) (failure : SocketAddr → IoError) (hne : l ≠ [])
    (hfail : ∀ a ∈ l, env.result a = .error (failure a)) :
    TcpConnectorResponse.new env req port (.Multi l)
      = some (.Response (some req) port (some l) none, []) ∧
    ∃ stF, drive env (fuelSpec env l) (.Response (some req) port (some l) none) []
      = some (some (.error (.Io (failure (l.getLast hne)))), stF, l) := by
  refine ⟨rfl, ?_⟩
  obtain ⟨stF, hF⟩ := drive_multi_run env l hne req port []
  rw [outcomeSpec_all_err env req failure l hne hfail,
    attemptsSpec_all_err env failure l hfail] at hF
  simp only [List.nil_append] at hF
  exact ⟨stF, hF⟩

theorem all_fail_returns_last_error_witness :
    TcpConnectorResponse.new envFail (5 : Nat) 80 (.Multi [1, 2, 3])
      = some (.Response (some 5) 80 (some [1, 2, 3]) none, []) ∧
    ∃ stF, drive envFail (fuelSpec envFail [1, 2, 3])
        (.Response (some (5 : Nat)) 80 (some [1, 2, 3]) none) []
      = some (some (.error (.Io 53)), stF, [1, 2, 3]) :=
  all_fail_returns_last_error envFail 5 80 [1, 2, 3] (fun a => a + 50) (by simp)
    (by intro a ha; fin_cases ha <;> rfl)

/-- C3: For a request whose address descriptor is `Unresolved`, the future
returned by `call` starts in the `Error(Some(Unresolved))` state and
resolves on its first poll to `Err(Unresolved)`, with no connect attempt
to any transport address ever made (the attempt trace stays empty at
every fuel). -/
theorem unresolved_immediate_error (env : Env) (req : T) (port : Nat) (fuel : Nat) :
    TcpConnector.call env ⟨req, port, .None⟩
      = some (.Error (some .Unresolved), []) ∧
    TcpConnectorResponse.poll env (.Error (some .Unresolved) : TcpConnectorResponse T)
      = some (.ready (.error .Unresolved), .Error none, []) ∧
    drive env (fuel + 1) (.Error (some .Unresolved) : TcpConnectorResponse T) []
      = some (some (.error .Unresolved), .Error none, []) := by
  refine ⟨rfl, rfl, ?_⟩
  simp [drive, TcpConnectorResponse.poll]

/-- C4: For a `Single(addr)` descriptor, exactly one connect attempt is
made, directed at `addr`: on success the future resolves to
`Ok(Connection)` pairing the connected socket with the original request;
on failure with I/O error `e` it resolves to `Err(Io(e))` and no further
attempt is made. -/
theorem single_exactly_one_attempt (env : Env) (req : T) (port : Nat) (a : SocketAddr) :
    TcpConnectorResponse.new env req port (.One a)
      = some (.Response (some req) port none (some ⟨a, env.delay a, false⟩), []) ∧
    ∃ stF, drive env (env.delay a + 1)
        (.Response (some req) port none (some ⟨a, env.delay a, false⟩)) []
      = some (some (match env.result a with
          | .ok sock => .ok (Connection.new sock req)
          | .error e => .error (.Io e)), stF, [a]) := by
  refine ⟨rfl, ?_⟩
  rw [drive_fresh env (some req) port none a 1 (by omega) []]
  cases hres : env.result a with
  | ok sock =>
    rw [drive_resolve_ok env req port none a sock hres 1 (by omega)]
    refine ⟨.Response none port none (some ⟨a, 0, true⟩), ?_⟩
    simp
  | error e =>
    rw [drive_resolve_err_single env (some req) port a e hres 1 (by omega)]
    refine ⟨.Response (some req) port none (some ⟨a, 0, true⟩), ?_⟩
    simp

/-- C5: A poll of the `Response` (Attempting) state returns `Pending` only
when the in-flight connect operation for the current address is itself
pending: the state it suspends in holds an attempt that either was the
already-installed attempt with pending polls left, or was installed
during this very poll (all queue bookkeeping between attempts having run
synchronously inside the call) with its full delay still to run; the
request and port are untouched. -/
theorem attempting_pending_only_on_io (env : Env) (req : Option T) (port : Nat)
    (addrs : Option (List SocketAddr)) (stream : Option ConnAttempt)
    (st2 : TcpConnectorResponse T) (tr : List SocketAddr)
    (h : TcpConnectorResponse.poll env (.Response req port addrs stream)
      = some (.pending, st2, tr)) :
    ∃ a k addrs2, st2 = .Response req port addrs2 (some ⟨a, k, true⟩) ∧
      ((∃ b, stream = some ⟨a, k + 1, b⟩ ∧ addrs2 = addrs) ∨ env.delay a = k + 1) := by
  rw [poll_Response] at h
  exact pollResponse_pending_shape env req port addrs stream st2 tr h

theorem attempting_pending_only_on_io_witness :
    ∃ a k addrs2,
      (.Response (some (5 : Nat)) 80 (some []) (some ⟨4, 0, true⟩) : TcpConnectorResponse Nat)
        = .Response (some 5) 80 addrs2 (some ⟨a, k, true⟩) ∧
      ((∃ b, (some ⟨4, 1, true⟩ : Option ConnAttempt) = some ⟨a, k + 1, b⟩ ∧
          addrs2 = some []) ∨ envFail.delay a = k + 1) :=
  attempting_pending_only_on_io envFail (some 5) 80 (some []) (some ⟨4, 1, true⟩)
    (.Response (some 5) 80 (some []) (some ⟨4, 0, true⟩)) []
    (pollResponse_pending envFail (some 5) 80 (some []) 4 0 true)

/-- C6: `call` performs no transport I/O synchronously: it reads the port
and address descriptor, constructs the state machine, and returns with an
empty attempt trace (`TcpStream::connect` is lazy, so no connect attempt
happens until the returned future is polled); the connector is always
immediately ready to accept a call. -/
theorem call_constructs_without_io (env : Env) (c : Connect T)
    (st : TcpConnectorResponse T) (tr : List SocketAddr)
    (h : TcpConnector.call env c = some (st, tr)) :
    tr = [] ∧
    TcpConnector.call env c = TcpConnectorResponse.new env c.req c.port c.addr ∧
    TcpConnector.poll_ready = .ready (.ok ()) := by
  refine ⟨?_, rfl, rfl⟩
  rw [TcpConnector.call] at h
  cases hc : c.addr with
  | None =>
    rw [hc] at h
    simp [TcpConnectorResponse.new, ConnectAddrs.is_none] at h
    exact h.2
  | One a =>
    rw [hc] at h
    simp [TcpConnectorResponse.new, ConnectAddrs.is_none] at h
    exact h.2
  | Multi l =>
    rw [hc] at h
    simp [TcpConnectorResponse.new, ConnectAddrs.is_none] at h
    exact h.2

theorem call_constructs_without_io_witness :
    ([] : List SocketAddr) = [] ∧
    TcpConnector.call envAllOk ⟨(5 : Nat), 80, .One 3⟩
      = TcpConnectorResponse.new envAllOk 5 80 (.One 3) ∧
    TcpConnector.poll_ready = .ready (.ok ()) :=
  call_constructs_without_io envAllOk ⟨5, 80, .One 3⟩
    (.Response (some 5) 80 none (some ⟨3, 0, false⟩)) [] rfl

/-- C7: The `ConnectAddrs::None` arm of the match in
`TcpConnectorResponse::new` is unreachable: whenever `new` reaches the
match (`addr.is_none()` returned `false`), the descriptor is not the
`None` variant, and `new` returns a state rather than hitting the
`unreachable!` assertion. -/
theorem unreachable_arm_never_hit (env : Env) (req : T) (port : Nat)
    (addr : ConnectAddrs) (h : addr.is_none = false) :
    addr ≠ ConnectAddrs.None ∧ (TcpConnectorResponse.new env req port addr).isSome := by
  cases addr with
  | None => exact absurd h (by simp [ConnectAddrs.is_none])
  | One a => exact ⟨by simp, rfl⟩
  | Multi l => exact ⟨by simp, rfl⟩

theorem unreachable_arm_never_hit_witness :
    ConnectAddrs.One 3 ≠ ConnectAddrs.None ∧
    (TcpConnectorResponse.new envAllOk (5 : Nat) 80 (.One 3)).isSome :=
  unreachable_arm_never_hit envAllOk 5 80 (.One 3) rfl

/-- C9: Under the precondition that a `Multi` descriptor carries a
non-empty address queue, no unwrap in the poll loop ever panics: driving
the constructed future with any amount of fuel never reaches a panic
(`none`), whatever the transport outcomes. -/
theorem multi_nonempty_no_panic (env : Env) (req : T) (port : Nat)
    (l : List SocketAddr) (hne : l ≠ []) (st : TcpConnectorResponse T)
    (tr0 : List SocketAddr)
    (hnew : TcpConnectorResponse.new env req port (.Multi l) = some (st, tr0))
    (fuel : Nat) (tr : List SocketAddr) :
    drive env fuel st tr ≠ none := by
  have hval : TcpConnectorResponse.new env req port (.Multi l)
      = some (.Response (some req) port (some l) none, []) := rfl
  rw [hval] at hnew
  simp only [Option.some.injEq, Prod.mk.injEq] at hnew
  obtain ⟨hst, _⟩ := hnew
  rw [← hst]
  refine drive_ne_none env fuel _ tr ⟨req, port, some l, none, rfl, ?_⟩
  intro _
  cases l with
  | nil => exact absurd rfl hne
  | cons x xs => exact ⟨x, xs, rfl⟩

theorem multi_nonempty_no_panic_witness :
    drive envFail 2 (.Response (some (5 : Nat)) 80 (some [1, 2, 3]) none) [] ≠ none :=
  multi_nonempty_no_panic envFail 5 80 [1, 2, 3] (by simp)
    (.Response (some 5) 80 (some [1, 2, 3]) none) [] rfl 2 []

/-- C10: The future is not re-pollable after completion: once a poll has
returned `Ready` from the Immediate-Error state or from the Attempting
state after a success, the `Option` slots holding the error resp. the
request have been taken, and polling the resulting state again panics on
an unwrap of `None` instead of returning the earlier result. -/
theorem no_repoll_after_ready (env : Env) (st st2 : TcpConnectorResponse T)
    (c : Connection T) (tr : List SocketAddr)
    (hready : st.poll env = some (.ready (.ok c), st2, tr)) :
    st2.poll env = none ∧
    (∀ e : ConnectError,
      TcpConnectorResponse.poll env (.Error (some e) : TcpConnectorResponse T)
        = some (.ready (.error e), .Error none, []) ∧
      TcpConnectorResponse.poll env (.Error none : TcpConnectorResponse T) = none) := by
  refine ⟨?_, fun e => ⟨rfl, rfl⟩⟩
  cases st with
  | Error err =>
    cases err with
    | some e =>
      rw [poll_Error_some] at hready
      simp at hready
    | none =>
      rw [poll_Error_none] at hready
      exact absurd hready (by simp)
  | Response req port addrs stream =>
    rw [poll_Response] at hready
    obtain ⟨a, addrs2, hshape, hres⟩ :=
      pollResponse_ok_shape env req port addrs stream c st2 tr hready
    rw [hshape, poll_Response]
    exact pollResponse_ok_taken env port addrs2 a true c.io hres

theorem no_repoll_after_ready_witness :
    TcpConnectorResponse.poll envAllOk
        (.Response none 80 none (some ⟨3, 0, true⟩) : TcpConnectorResponse Nat) = none ∧
    (∀ e : ConnectError,
      TcpConnectorResponse.poll envAllOk (.Error (some e) : TcpConnectorResponse Nat)
        = some (.ready (.error e), .Error none, []) ∧
      TcpConnectorResponse.poll envAllOk (.Error none : TcpConnectorResponse Nat) = none) :=
  no_repoll_after_ready envAllOk (.Response (some 5) 80 none (some ⟨3, 0, true⟩))
    (.Response none 80 none (some ⟨3, 0, true⟩)) (Connection.new 103 5) []
    (pollResponse_ok envAllOk 80 none 3 true 5 103 rfl)

end Claims

end ActixTls
